import Mathlib

/-!
Verification of the ByteHop file-transfer core against its source.

Shallow embedding of:
- `useFileTransfer.ts` (src/unnamed/part_001): the framing codec, the inbound
  protocol handler `handleIncomingTransfer`, the sender pipeline `sendFile`,
  and `registerProtocol`;
- `src/relay/index.ts`: the short-code registry (`generateCode`, the `/code`
  HTTP lookup, and the periodic sweep).

Modelling conventions:
- A byte stream is a `List Nat` of byte values; `byteStream(stream).read({bytes: n})`
  waits for exactly `n` bytes and throws if the stream ends first, which we model
  as `readBytes` returning `none`.
- JavaScript numbers that are used as integers become `Int`/`Nat`; a JS
  `undefined` field becomes `none : Option _`.
- `JSON.stringify({filename, size})` is modelled byte-for-byte (including the
  escape sequences stringify emits); `JSON.parse` is modelled on the fragment
  of JSON the handler can actually receive for its metadata object: one-level
  objects whose values are strings or integer numbers, with no interior
  whitespace.  Fractional numbers, nested values, and whitespace make the
  modelled parser fail; no theorem below exercises those inputs.
- Traces: every write the code performs to the reactive `transfers` map entry of
  one session (creation, each in-loop progress mutation, the final status
  mutation, and the error-path `set`) is recorded in order as one `Session`
  value in a `trace` list.
- Loops are written with an explicit fuel argument so that every definition is
  structurally recursive and kernel-evaluable; the fuel passed at each call site
  strictly exceeds the number of iterations the loop can perform, so the
  fuel-exhaustion branch is unreachable there.
-/

namespace ByteHop

/-- Transfer status, from the `status` union in `FileTransferProgress`. -/
inductive Status where
  | pending
  | transferring
  | completed
  | error
deriving DecidableEq, Repr

/-- Transfer direction, from the `direction` union in `FileTransferProgress`. -/
inductive Direction where
  | send
  | receive
deriving DecidableEq, Repr

/-- Errors thrown inside the two pipelines.  `invalidMetaLength` is the explicit
`throw new Error('Invalid metadata length: ...')`; `streamEnded` is a
`byteStream.read` that cannot be satisfied; `jsonParse` is a `JSON.parse`
failure; `notConnected` and `dialTimeout` are the sender-side failures. -/
inductive TErr where
  | streamEnded
  | invalidMetaLength (n : Nat)
  | jsonParse
  | notConnected
  | dialTimeout
deriving DecidableEq, Repr

/-- JSON values appearing in the metadata object: strings (as byte lists) and
integer numbers. -/
inductive JVal where
  | str (s : List Nat)
  | num (n : Int)
deriving DecidableEq, Repr

/-- One snapshot of a `FileTransferProgress` registry entry.  `filename` and
`size` hold the raw JSON values the receiver read (or `none` when the JS value
would be `undefined`). -/
structure Session where
  filename : Option JVal
  size : Option JVal
  transferred : Int
  status : Status
  direction : Direction
  errMsg : Option TErr
deriving DecidableEq, Repr

/-- The storage strategy committed to by a receive session. -/
inductive Strategy where
  | persistent
  | memory
deriving DecidableEq, Repr

/-- Everything observable about one run of `handleIncomingTransfer`:
the session trace, the `receivedFiles` entry pushed on success (filename JSON
value and blob bytes), the number of `stream.close()` calls, the unread suffix
of the stream, the storage strategy chosen (if reached), the number of OPFS
acquisition attempts, and whether the whole handler body threw. -/
structure RecvResult where
  trace : List Session
  received : Option (Option JVal × List Nat)
  closes : Nat
  rest : List Nat
  strategy : Option Strategy
  attempts : Nat
  outcome : Except TErr Unit

/-- A connection as seen by the sender: remote peer id and whether the remote
address matches the WebRTC matcher. -/
structure Conn where
  remotePeer : String
  isWebRTC : Bool
deriving DecidableEq, Repr

/-- Everything observable about one run of `sendFile`: the session trace, the
bytes written onto the protocol stream, the connection chosen, and the
outcome re-raised to the caller. -/
structure SendResult where
  trace : List Session
  wire : List Nat
  chosen : Option Conn
  outcome : Except TErr Unit

/-- `byteStream.read({bytes: n})`: exactly `n` bytes or failure. -/
def readBytes (n : Nat) (s : List Nat) : Option (List Nat × List Nat) :=
  if n ≤ s.length then some (s.take n, s.drop n) else none

/-- `new DataView(buf).setUint32(0, n)`: 4 big-endian bytes (mod 2^32). -/
def be4 (n : Nat) : List Nat :=
  [n / 16777216 % 256, n / 65536 % 256, n / 256 % 256, n % 256]

/-- `new DataView(buf).getUint32(0)` on a 4-byte buffer (big-endian fold). -/
def beUint32 (l : List Nat) : Nat :=
  l.foldl (fun a b => a * 256 + b) 0

/-- Lower-case hex digit, as `Number.prototype.toString(16)` emits. -/
def hexDig (x : Nat) : Nat :=
  if x < 10 then 48 + x else 87 + x

/-- The bytes `JSON.stringify` emits for one string character (ASCII range and
raw high bytes): `\"` and `\\`, the two-character control escapes, `\u00XX`
for the remaining control characters, and the byte itself otherwise. -/
def escapeByte (b : Nat) : List Nat :=
  if b = 34 then [92, 34]
  else if b = 92 then [92, 92]
  else if b = 8 then [92, 98]
  else if b = 9 then [92, 116]
  else if b = 10 then [92, 110]
  else if b = 12 then [92, 102]
  else if b = 13 then [92, 114]
  else if b < 32 then [92, 117, 48, 48, hexDig (b / 16), hexDig (b % 16)]
  else [b]

/-- JSON string-body escaping of a whole byte string. -/
def escapeString (s : List Nat) : List Nat :=
  s.flatMap escapeByte

/-- Decimal digits of `n`, least significant first, with fuel. -/
def digitsRevF : Nat → Nat → List Nat
  | 0, _ => []
  | fuel + 1, n => if n < 10 then [n] else n % 10 :: digitsRevF fuel (n / 10)

/-- The ASCII bytes of the decimal representation of `n`, as
`JSON.stringify` emits for a non-negative integer. -/
def natDecBytes (n : Nat) : List Nat :=
  ((digitsRevF (n + 1) n).reverse).map (· + 48)

/-- The bytes of the key string `filename`. -/
def keyFilename : List Nat := [102, 105, 108, 101, 110, 97, 109, 101]

/-- The bytes of the key string `size`. -/
def keySize : List Nat := [115, 105, 122, 101]

/-- The bytes of the string `Unknown` used by the receiver error path. -/
def unknownName : List Nat := [85, 110, 107, 110, 111, 119, 110]

/-- A sample peer id used to instantiate theorems at concrete inputs. -/
def peerA : String := "12D3KooWPeerA"

/-- A sample multiaddress used to instantiate theorems at concrete inputs. -/
def addrA : String := "/ip4/203.0.113.7/tcp/9090/ws/p2p/12D3KooWPeerA"

/-- `fromString(JSON.stringify({ filename: file.name, size: file.size }))`:
the exact metadata bytes the sender writes.  Byte 123 is the opening brace,
125 the closing brace, 34 the quote, 58 the colon, 44 the comma. -/
def encodeMeta (fn : List Nat) (size : Nat) : List Nat :=
  123 :: 34 :: keyFilename ++ [34, 58, 34] ++ escapeString fn ++ [34, 44, 34]
    ++ keySize ++ [34, 58] ++ natDecBytes size ++ [125]

/-- Value of one hex digit character, as `JSON.parse` accepts (both cases). -/
def hexVal (c : Nat) : Option Nat :=
  if 48 ≤ c ∧ c ≤ 57 then some (c - 48)
  else if 97 ≤ c ∧ c ≤ 102 then some (c - 87)
  else if 65 ≤ c ∧ c ≤ 70 then some (c - 55)
  else none

/-- JSON string body parser: consumes bytes after an opening quote up to and
including the closing quote, undoing the escapes `JSON.parse` accepts.
`\uXXXX` is only accepted below 128 (the handler's encoder never emits more);
returns the decoded bytes and the remainder of the input. -/
def parseStrBody : List Nat → Option (List Nat × List Nat)
  | [] => none
  | c :: rest =>
    if c = 34 then some ([], rest)
    else if c = 92 then
      match rest with
      | [] => none
      | e :: r =>
        if e = 34 then (parseStrBody r).map (fun p => (34 :: p.1, p.2))
        else if e = 92 then (parseStrBody r).map (fun p => (92 :: p.1, p.2))
        else if e = 47 then (parseStrBody r).map (fun p => (47 :: p.1, p.2))
        else if e = 98 then (parseStrBody r).map (fun p => (8 :: p.1, p.2))
        else if e = 102 then (parseStrBody r).map (fun p => (12 :: p.1, p.2))
        else if e = 110 then (parseStrBody r).map (fun p => (10 :: p.1, p.2))
        else if e = 114 then (parseStrBody r).map (fun p => (13 :: p.1, p.2))
        else if e = 116 then (parseStrBody r).map (fun p => (9 :: p.1, p.2))
        else if e = 117 then
          match r with
          | h1 :: h2 :: h3 :: h4 :: r2 =>
            match hexVal h1, hexVal h2, hexVal h3, hexVal h4 with
            | some v1, some v2, some v3, some v4 =>
              let v := ((v1 * 16 + v2) * 16 + v3) * 16 + v4
              if v < 128 then (parseStrBody r2).map (fun p => (v :: p.1, p.2))
              else none
            | _, _, _, _ => none
          | _ => none
        else none
    else (parseStrBody rest).map (fun p => (c :: p.1, p.2))

/-- Longest digit run at the head of the input. -/
def takeDigits : List Nat → List Nat × List Nat
  | [] => ([], [])
  | c :: r =>
    if 48 ≤ c ∧ c ≤ 57 then
      let p := takeDigits r
      (c :: p.1, p.2)
    else ([], c :: r)

/-- Numeric value of a digit-byte run. -/
def valOfDigits (ds : List Nat) : Nat :=
  ds.foldl (fun a c => a * 10 + (c - 48)) 0

/-- JSON integer number parser (optional leading minus, then digits). -/
def parseNumber (s : List Nat) : Option (Int × List Nat) :=
  match s with
  | [] => none
  | c :: r =>
    if c = 45 then
      let p := takeDigits r
      if p.1 = [] then none else some (-(valOfDigits p.1 : Int), p.2)
    else
      let p := takeDigits (c :: r)
      if p.1 = [] then none else some ((valOfDigits p.1 : Int), p.2)

/-- JSON value parser for the shapes the metadata object can hold. -/
def parseValue (s : List Nat) : Option (JVal × List Nat) :=
  match s with
  | [] => none
  | c :: r =>
    if c = 34 then (parseStrBody r).map (fun p => (JVal.str p.1, p.2))
    else
      match parseNumber (c :: r) with
      | none => none
      | some (n, rest) => some (JVal.num n, rest)

/-- Comma-separated `"key":value` pairs up to the closing brace (byte 125),
with fuel bounding the number of pairs. -/
def parsePairs : Nat → List Nat → Option (List (List Nat × JVal) × List Nat)
  | 0, _ => none
  | fuel + 1, s =>
    match s with
    | 34 :: r =>
      match parseStrBody r with
      | none => none
      | some (key, r1) =>
        match r1 with
        | 58 :: r2 =>
          match parseValue r2 with
          | none => none
          | some (v, r3) =>
            match r3 with
            | 44 :: r4 =>
              match parsePairs fuel r4 with
              | none => none
              | some (ps, r5) => some ((key, v) :: ps, r5)
            | 125 :: r4 => some ([(key, v)], r4)
            | _ => none
        | _ => none
    | _ => none

/-- `JSON.parse` on a whole one-level object (the entire input must be the
object, as `JSON.parse` requires). -/
def parseJsonObj (s : List Nat) : Option (List (List Nat × JVal)) :=
  match s with
  | 123 :: 125 :: rest => if rest = [] then some [] else none
  | 123 :: r =>
    match parsePairs (r.length + 1) r with
    | some (ps, []) => some ps
    | _ => none
  | _ => none

/-- JS property lookup on a parsed object: the last pair with the key wins. -/
def jlookup (ps : List (List Nat × JVal)) (k : List Nat) : Option JVal :=
  List.lookup k ps.reverse

/-- `JSON.parse(new TextDecoder().decode(metaBytes))` followed by the two
property accesses `metadata.filename` and `metadata.size`. -/
def parseMeta (s : List Nat) : Option (Option JVal × Option JVal) :=
  match parseJsonObj s with
  | none => none
  | some ps => some (jlookup ps keyFilename, jlookup ps keySize)

/-- The registry entry written by `handleIncomingTransfer`'s catch block:
`{filename: 'Unknown', size: 0, transferred: 0, status: 'error', ...}`. -/
def errSession (e : TErr) : Session :=
  { filename := some (JVal.str unknownName), size := some (JVal.num 0),
    transferred := 0, status := Status.error, direction := Direction.receive,
    errMsg := some e }

/-- A `RecvResult` for a failure before the session entry was created. -/
def errResult (e : TErr) (rest : List Nat) : RecvResult :=
  { trace := [errSession e], received := none, closes := 0, rest := rest,
    strategy := none, attempts := 0, outcome := Except.error e }

/-- The receiver payload loop (`while (remaining > 0) ...`): reads up to
65536 bytes at a time, collects the chunks (the spool writes), records one
progress mutation per chunk, and carries the current registry entry through.
Returns (trace additions, final entry value, chunks or error, unread rest).
The fuel-exhaustion branch is unreachable at the call site, where fuel
strictly exceeds the declared size and every iteration consumes at least one
byte of `remaining`. -/
def recvLoopF :
    Nat → Int → Session → Int → List Nat →
      List Session × Session × Except TErr (List (List Nat)) × List Nat
  | 0, _, cur, _, s => ([], cur, Except.error TErr.streamEnded, s)
  | fuel + 1, size, cur, remaining, s =>
    if 0 < remaining then
      let readSize : Int := min remaining 65536
      match readBytes readSize.toNat s with
      | none => ([], cur, Except.error TErr.streamEnded, s)
      | some (chunk, rest) =>
        let remaining2 := remaining - (chunk.length : Int)
        let upd := { cur with transferred := size - remaining2 }
        let r := recvLoopF fuel size upd remaining2 rest
        (upd :: r.1, r.2.1, (r.2.2.1).map (fun cs => chunk :: cs), r.2.2.2)
    else ([], cur, Except.ok [], s)

/-- The registry entry `handleIncomingTransfer` creates after parsing the
metadata (line 92 of the source: status is already `transferring`). -/
def recvStart (fnv szv : Option JVal) : Session :=
  { filename := fnv, size := szv, transferred := 0,
    status := Status.transferring, direction := Direction.receive, errMsg := none }

/-- The payload loop as dispatched on the parsed `size` value: only a numeric
`size` enters the loop (`undefined > 0` and friends are false in JS);
anything else skips it with no chunks read. -/
def recvRun (fnv szv : Option JVal) (s2 : List Nat) :
    List Session × Session × Except TErr (List (List Nat)) × List Nat :=
  match szv with
  | some (JVal.num n) => recvLoopF (n.toNat + 1) n (recvStart fnv szv) n s2
  | _ => ([], recvStart fnv szv, Except.ok [], s2)

/-- The receiver from the point the metadata has been parsed: the session
entry has been created (already `transferring`, exactly as the source does),
OPFS acquisition is attempted once (`opfsOk` says whether
`navigator.storage.getDirectory` and friends succeed), the payload loop runs,
then the blob is finalized, the received file pushed and the stream closed on
success, or the entry is overwritten with the error record on failure. -/
def afterMeta (opfsOk : Bool) (fnv szv : Option JVal) (s2 : List Nat) : RecvResult :=
  let strat : Strategy := if opfsOk then Strategy.persistent else Strategy.memory
  match recvRun fnv szv s2 with
  | (tr, fin, Except.ok chunks, rest) =>
    { trace := recvStart fnv szv :: tr ++ [{ fin with status := Status.completed }],
      received := some (fnv, chunks.flatten),
      closes := 1, rest := rest, strategy := some strat, attempts := 1,
      outcome := Except.ok () }
  | (tr, _, Except.error e, rest) =>
    { trace := recvStart fnv szv :: tr ++ [errSession e],
      received := none, closes := 0, rest := rest, strategy := some strat,
      attempts := 1, outcome := Except.error e }

/-- `handleIncomingTransfer(stream)`: read the 4-byte length, reject lengths
over 10000, read and parse the metadata, then hand over to the post-metadata
stage.  Any throw lands in the catch block, which only writes the error entry
(it does not close the stream). -/
def handleIncomingTransfer (opfsOk : Bool) (s : List Nat) : RecvResult :=
  match readBytes 4 s with
  | none => errResult TErr.streamEnded s
  | some (lenBytes, s1) =>
    let metadataLength := beUint32 lenBytes
    if 10000 < metadataLength then
      errResult (TErr.invalidMetaLength metadataLength) s1
    else
      match readBytes metadataLength s1 with
      | none => errResult TErr.streamEnded s1
      | some (metaBytes, s2) =>
        match parseMeta metaBytes with
        | none => errResult TErr.jsonParse s2
        | some (fnv, szv) => afterMeta opfsOk fnv szv s2

/-- The sender chunk loop (`while (offset < file.size) ...`): slice up to
65536 bytes, write the slice, advance `offset`, record one progress mutation.
Returns (trace additions, chunks written, final entry value).  Fuel is
unreachable at the call site for the same reason as in `recvLoopF`. -/
def sendLoopF :
    Nat → Session → List Nat → Nat → List Session × List (List Nat) × Session
  | 0, cur, _, _ => ([], [], cur)
  | fuel + 1, cur, content, offset =>
    if offset < content.length then
      let chunk := (content.drop offset).take 65536
      let offset2 := offset + chunk.length
      let upd := { cur with transferred := (offset2 : Int) }
      let r := sendLoopF fuel upd content offset2
      (upd :: r.1, chunk :: r.2.1, r.2.2)
    else ([], [], cur)

/-- `sendFile(file, peerId)`: create the session entry as `pending`, select a
connection to the peer (preferring the WebRTC match, else the first), dial
the protocol stream (`dialOk` says whether the 30 s dial succeeds), flip to
`transferring`, write the 4-byte length prefix, the metadata bytes and the
payload chunks, then mark `completed`; on failure set `status`/`error` on the
existing entry (keeping `transferred`) and re-raise. -/
def sendFile (conns : List Conn) (dialOk : Bool) (fn content : List Nat)
    (peer : String) : SendResult :=
  let size : Int := (content.length : Int)
  let s0 : Session :=
    { filename := some (JVal.str fn), size := some (JVal.num size),
      transferred := 0, status := Status.pending, direction := Direction.send,
      errMsg := none }
  let peerConns := conns.filter (fun c => c.remotePeer == peer)
  match peerConns with
  | [] =>
    { trace := [s0, { s0 with status := Status.error, errMsg := some TErr.notConnected }],
      wire := [], chosen := none, outcome := Except.error TErr.notConnected }
  | c0 :: _ =>
    let chosen :=
      match peerConns.find? (fun c => c.isWebRTC) with
      | some c => c
      | none => c0
    let metaBytes := encodeMeta fn content.length
    let lenBuf := be4 metaBytes.length
    if dialOk then
      let s1 := { s0 with status := Status.transferring }
      let r := sendLoopF (content.length + 1) s1 content 0
      { trace := s0 :: s1 :: r.1 ++ [{ r.2.2 with status := Status.completed }],
        wire := lenBuf ++ metaBytes ++ r.2.1.flatten,
        chosen := some chosen, outcome := Except.ok () }
    else
      { trace := [s0, { s0 with status := Status.error, errMsg := some TErr.dialTimeout }],
        wire := [], chosen := some chosen, outcome := Except.error TErr.dialTimeout }

/-- The transfer protocol identifier. -/
def FILE_TRANSFER_PROTOCOL : String := "/bytehop/file/1.0.0"

/-- The libp2p host state the composable touches: the module-level
`protocolRegistered` flag and the multiset of installed handlers, as a list
of protocol ids. -/
structure HostState where
  protocolRegistered : Bool
  handlers : List String
deriving DecidableEq, Repr

/-- Fresh host state before any registration. -/
def initialHost : HostState :=
  { protocolRegistered := false, handlers := [] }

/-- `libp2p.unhandle(p)`: removes every handler for `p`. -/
def unhandleP (p : String) (hs : List String) : List String :=
  hs.filter (fun q => q ≠ p)

/-- `registerProtocol(libp2p)`: early-return if already registered, otherwise
unhandle any existing handler for the id and install exactly one new one. -/
def registerProtocol (st : HostState) : HostState :=
  if st.protocolRegistered then st
  else
    { protocolRegistered := true,
      handlers := unhandleP FILE_TRANSFER_PROTOCOL st.handlers ++ [FILE_TRANSFER_PROTOCOL] }

/-- One inbound stream is delivered to every active handler for the protocol,
and each handler invocation runs `handleIncomingTransfer` once, creating one
receive session. -/
def inboundSessions (st : HostState) (opfsOk : Bool) (s : List Nat) : List RecvResult :=
  (st.handlers.filter (fun q => q = FILE_TRANSFER_PROTOCOL)).map
    (fun _ => handleIncomingTransfer opfsOk s)

/-- `CODE_EXPIRY_MS = 5 * 60 * 1000`. -/
def CODE_EXPIRY_MS : Nat := 5 * 60 * 1000

/-- A code registry entry: address and creation time (ms timestamps). -/
structure CodeEntry where
  address : String
  createdAt : Nat
deriving DecidableEq, Repr

/-- The in-memory `Map` of the relay's code registry, keyed by code string. -/
def CodeRegistry := List (String × CodeEntry)

/-- The GET `/code` lookup: missing key is not-found; a key found but older
than the TTL is deleted and reported not-found; otherwise the address is
returned and the registry unchanged.  (JS computes `now - createdAt` on
numbers; for `now < createdAt` truncated `Nat` subtraction and the JS
negative difference both fail the `> CODE_EXPIRY_MS` test.) -/
def lookupCode (reg : CodeRegistry) (code : String) (now : Nat) :
    CodeRegistry × Option String :=
  match List.lookup code reg with
  | none => (reg, none)
  | some entry =>
    if CODE_EXPIRY_MS < now - entry.createdAt then
      (List.filter (fun kv => kv.1 ≠ code) reg, none)
    else
      (reg, some entry.address)

/-- The periodic sweep (`setInterval` body): delete every entry older than
the TTL. -/
def sweepCodes (reg : CodeRegistry) (now : Nat) : CodeRegistry :=
  List.filter (fun kv => ¬ CODE_EXPIRY_MS < now - kv.2.createdAt) reg

/-- `generateCode()`: draw `Math.floor(100000 + Math.random() * 900000)`
(`d` is the scaled random draw, `d < 900000`), retrying while the registry
already has the code.  The stream of draws is passed explicitly; an empty
stream models exhaustion and returns `none`. -/
def generateCode (draws : List Nat) (reg : CodeRegistry) : Option Nat :=
  match draws with
  | [] => none
  | d :: rest =>
    let code := 100000 + d
    if (List.lookup (Nat.repr code) reg).isSome then generateCode rest reg
    else some code

/-- `codeRegistry.set(code, {address, createdAt})` on a fresh code. -/
def registerCode (reg : CodeRegistry) (code : Nat) (e : CodeEntry) : CodeRegistry :=
  (Nat.repr code, e) :: reg

/-- Rank of a status in the forward lifecycle. -/
def statusRank : Status → Nat
  | Status.pending => 0
  | Status.transferring => 1
  | Status.completed => 2
  | Status.error => 2

/-- One registry write may keep or advance the lifecycle stage, and may not
leave a terminal state. -/
def ForwardStep (a b : Session) : Prop :=
  statusRank a.status ≤ statusRank b.status ∧
    (2 ≤ statusRank a.status → b.status = a.status)

/-- A trace whose consecutive writes all respect `ForwardStep`. -/
def ForwardTrace (l : List Session) : Prop :=
  List.Chain' ForwardStep l

/-- A trace whose `transferred` values never decrease. -/
def MonoTrace (l : List Session) : Prop :=
  List.Chain' (fun a b => a.transferred ≤ b.transferred) l

/-! ### Basic codec lemmas -/

theorem readBytes_exact (l r : List Nat) : readBytes l.length (l ++ r) = some (l, r) := by
  have h : l.length ≤ (l ++ r).length := by simp
  simp [readBytes, h, List.take_left, List.drop_left]

theorem beUint32_be4 (n : Nat) (h : n < 4294967296) : beUint32 (be4 n) = n := by
  simp [beUint32, be4, List.foldl]
  omega

theorem be4_length (n : Nat) : (be4 n).length = 4 := rfl

theorem hexVal_hexDig (x : Nat) (h : x < 16) : hexVal (hexDig x) = some x := by
  unfold hexVal hexDig
  split_ifs <;> first
    | (congr 1; omega)
    | omega

theorem parseStrBody_escape (F r : List Nat) :
    parseStrBody (escapeString F ++ 34 :: r) = some (F, r) := by
  induction F with
  | nil =>
    rw [show escapeString [] ++ 34 :: r = 34 :: r by simp [escapeString],
      parseStrBody.eq_def]
    simp
  | cons b F ih =>
    have hflat : escapeString (b :: F) = escapeByte b ++ escapeString F := by
      simp [escapeString]
    rw [hflat, List.append_assoc]
    unfold escapeByte
    split_ifs with h1 h2 h3 h4 h5 h6 h7 h8
    · subst h1; rw [List.cons_append, List.cons_append, List.nil_append,
        parseStrBody.eq_def]; simp [ih]
    · subst h2; rw [List.cons_append, List.cons_append, List.nil_append,
        parseStrBody.eq_def]; simp [ih]
    · subst h3; rw [List.cons_append, List.cons_append, List.nil_append,
        parseStrBody.eq_def]; simp [ih]
    · subst h4; rw [List.cons_append, List.cons_append, List.nil_append,
        parseStrBody.eq_def]; simp [ih]
    · subst h5; rw [List.cons_append, List.cons_append, List.nil_append,
        parseStrBody.eq_def]; simp [ih]
    · subst h6; rw [List.cons_append, List.cons_append, List.nil_append,
        parseStrBody.eq_def]; simp [ih]
    · subst h7; rw [List.cons_append, List.cons_append, List.nil_append,
        parseStrBody.eq_def]; simp [ih]
    · -- the `\u00XX` escape for the remaining control bytes
      have hd : b / 16 < 16 := by omega
      have hm : b % 16 < 16 := by omega
      have hv : ((0 * 16 + 0) * 16 + b / 16) * 16 + b % 16 = b := by omega
      have hb128 : b < 128 := by omega
      simp only [List.cons_append, List.nil_append]
      rw [parseStrBody.eq_def]
      simp +decide
      rw [hexVal_hexDig (b / 16) hd, hexVal_hexDig (b % 16) hm,
        show hexVal 48 = some 0 by decide]
      dsimp only
      rw [ih]
      split_ifs with hlt
      · rw [Option.map_some', hv]
      · exfalso; omega
    · -- plain byte: not a quote, not a backslash
      have hq : b ≠ 34 := h1
      have hs : b ≠ 92 := h2
      rw [List.cons_append, List.nil_append, parseStrBody.eq_def]
      simp [hq, hs, ih]

/-! ### Decimal digit lemmas -/

theorem valOfDigits_append (ds : List Nat) (d : Nat) :
    valOfDigits (ds ++ [d]) = valOfDigits ds * 10 + (d - 48) := by
  simp [valOfDigits, List.foldl_append]

theorem digitsRevF_correct (fuel : Nat) :
    ∀ n, n < fuel →
      valOfDigits (((digitsRevF fuel n).reverse).map (· + 48)) = n ∧
      digitsRevF fuel n ≠ [] ∧ ∀ d ∈ digitsRevF fuel n, d < 10 := by
  induction fuel with
  | zero => intro n hn; omega
  | succ f ih =>
    intro n hn
    by_cases h10 : n < 10
    · simp [digitsRevF, h10, valOfDigits]
    · have hdiv : n / 10 < f := by omega
      obtain ⟨ihv, ihne, ihlt⟩ := ih (n / 10) hdiv
      constructor
      · simp only [digitsRevF, if_neg h10, List.reverse_cons, List.map_append]
        rw [show (List.map (· + 48) [n % 10]) = [n % 10 + 48] from rfl,
          valOfDigits_append, ihv]
        omega
      · constructor
        · simp [digitsRevF, h10]
        · intro d hd
          simp only [digitsRevF, if_neg h10, List.mem_cons] at hd
          rcases hd with h | h
          · omega
          · exact ihlt d h

theorem natDecBytes_val (n : Nat) : valOfDigits (natDecBytes n) = n :=
  (digitsRevF_correct (n + 1) n (by omega)).1

theorem natDecBytes_ne_nil (n : Nat) : natDecBytes n ≠ [] := by
  have h := (digitsRevF_correct (n + 1) n (by omega)).2.1
  intro hc
  apply h
  simpa [natDecBytes] using hc

theorem natDecBytes_digits (n : Nat) : ∀ c ∈ natDecBytes n, 48 ≤ c ∧ c ≤ 57 := by
  intro c hc
  have h := (digitsRevF_correct (n + 1) n (by omega)).2.2
  simp only [natDecBytes, List.mem_map, List.mem_reverse] at hc
  obtain ⟨d, hd, rfl⟩ := hc
  have := h d hd
  omega

/-! ### Number / value / pair parsing lemmas -/

theorem takeDigits_append (ds : List Nat) (x : Nat) (r : List Nat)
    (h : ∀ c ∈ ds, 48 ≤ c ∧ c ≤ 57) (hx : ¬(48 ≤ x ∧ x ≤ 57)) :
    takeDigits (ds ++ x :: r) = (ds, x :: r) := by
  induction ds with
  | nil => simp [takeDigits, hx]
  | cons c t ih =>
    have hc := h c (by simp)
    have ht : ∀ c ∈ t, 48 ≤ c ∧ c ≤ 57 := fun c hm => h c (by simp [hm])
    simp [takeDigits, hc, ih ht]

theorem parseNumber_dec (n : Nat) (x : Nat) (r : List Nat)
    (hx : ¬(48 ≤ x ∧ x ≤ 57)) :
    parseNumber (natDecBytes n ++ x :: r) = some ((n : Int), x :: r) := by
  obtain ⟨d, ds, hds⟩ : ∃ d ds, natDecBytes n = d :: ds := by
    cases h : natDecBytes n with
    | nil => exact absurd h (natDecBytes_ne_nil n)
    | cons d ds => exact ⟨d, ds, rfl⟩
  have hd48 : 48 ≤ d ∧ d ≤ 57 := natDecBytes_digits n d (by simp [hds])
  have htd : takeDigits (natDecBytes n ++ x :: r) = (natDecBytes n, x :: r) :=
    takeDigits_append _ _ _ (natDecBytes_digits n) hx
  have hd45 : d ≠ 45 := by omega
  rw [hds] at htd ⊢
  simp only [List.cons_append, parseNumber, if_neg hd45]
  rw [show d :: (ds ++ x :: r) = (d :: ds) ++ x :: r from rfl, htd]
  rw [show d :: ds = natDecBytes n from hds.symm, natDecBytes_val]
  simp [natDecBytes_ne_nil n]

theorem parseValue_str (F rest : List Nat) :
    parseValue (34 :: (escapeString F ++ 34 :: rest)) = some (JVal.str F, rest) := by
  rw [parseValue.eq_def]
  simp [parseStrBody_escape]

theorem parseValue_dec (n : Nat) (x : Nat) (r : List Nat)
    (hx : ¬(48 ≤ x ∧ x ≤ 57)) (hx34 : x ≠ 34) :
    parseValue (natDecBytes n ++ x :: r) = some (JVal.num (n : Int), x :: r) := by
  obtain ⟨d, ds, hds⟩ : ∃ d ds, natDecBytes n = d :: ds := by
    cases h : natDecBytes n with
    | nil => exact absurd h (natDecBytes_ne_nil n)
    | cons d ds => exact ⟨d, ds, rfl⟩
  have hd48 : 48 ≤ d ∧ d ≤ 57 := natDecBytes_digits n d (by simp [hds])
  have hpn := parseNumber_dec n x r hx
  rw [hds] at hpn ⊢
  have hd34 : d ≠ 34 := by omega
  rw [List.cons_append] at hpn ⊢
  rw [parseValue.eq_def]
  simp [hd34, hpn]

theorem parseStrBody_keyFilename (r : List Nat) :
    parseStrBody (keyFilename ++ 34 :: r) = some (keyFilename, r) := by
  have h := parseStrBody_escape keyFilename r
  rwa [show escapeString keyFilename = keyFilename by decide] at h

theorem parseStrBody_keySize (r : List Nat) :
    parseStrBody (keySize ++ 34 :: r) = some (keySize, r) := by
  have h := parseStrBody_escape keySize r
  rwa [show escapeString keySize = keySize by decide] at h

theorem parsePairs_meta (f : Nat) (fn : List Nat) (n : Nat) :
    parsePairs (f + 1 + 1)
        (34 :: (keyFilename ++ 34 :: 58 :: 34 :: (escapeString fn
          ++ 34 :: 44 :: 34 :: (keySize ++ 34 :: 58 :: (natDecBytes n ++ [125])))))
      = some ([(keyFilename, JVal.str fn), (keySize, JVal.num (n : Int))], []) := by
  have hv125 : parseValue (natDecBytes n ++ 125 :: []) =
      some (JVal.num (n : Int), 125 :: []) :=
    parseValue_dec n 125 [] (by decide) (by decide)
  simp only [parsePairs, parseStrBody_keyFilename, parseStrBody_keySize,
    parseValue_str, hv125]

theorem parsePairs_meta_ge (f : Nat) (hf : 2 ≤ f) (fn : List Nat) (n : Nat) :
    parsePairs f
        (34 :: (keyFilename ++ 34 :: 58 :: 34 :: (escapeString fn
          ++ 34 :: 44 :: 34 :: (keySize ++ 34 :: 58 :: (natDecBytes n ++ [125])))))
      = some ([(keyFilename, JVal.str fn), (keySize, JVal.num (n : Int))], []) := by
  obtain ⟨g, rfl⟩ : ∃ g, f = g + 1 + 1 := ⟨f - 2, by omega⟩
  exact parsePairs_meta g fn n

theorem parseMeta_encode (fn : List Nat) (n : Nat) :
    parseMeta (encodeMeta fn n) =
      some (some (JVal.str fn), some (JVal.num (n : Int))) := by
  have henc : encodeMeta fn n =
      123 :: 34 :: (keyFilename ++ 34 :: 58 :: 34 :: (escapeString fn
        ++ 34 :: 44 :: 34 :: (keySize ++ 34 :: 58 :: (natDecBytes n ++ [125])))) := by
    simp [encodeMeta]
  rw [henc]
  rw [parseMeta.eq_def, parseJsonObj.eq_def]
  simp +decide only []
  rw [parsePairs_meta_ge _ (by simp) fn n]
  simp +decide [jlookup, List.lookup, show (keyFilename == keySize) = false by decide,
    show (keySize == keyFilename) = false by decide]

/-! ### Receiver payload-loop lemmas -/

theorem readBytes_some (n : Nat) (s chunk rest : List Nat)
    (h : readBytes n s = some (chunk, rest)) :
    chunk = s.take n ∧ rest = s.drop n ∧ chunk.length = n ∧ n ≤ s.length := by
  unfold readBytes at h
  split at h
  · simp only [Option.some.injEq, Prod.mk.injEq] at h
    obtain ⟨h1, h2⟩ := h
    subst h1; subst h2
    refine ⟨rfl, rfl, ?_, by assumption⟩
    simp [List.length_take]
    omega
  · simp at h

theorem recvLoopF_trace (fuel : Nat) :
    ∀ (size : Int) (cur : Session) (remaining : Int) (s : List Nat),
      0 ≤ remaining → cur.transferred = size - remaining →
      List.Chain' (fun a b => a.transferred ≤ b.transferred)
        (cur :: (recvLoopF fuel size cur remaining s).1) ∧
      (∀ e ∈ (recvLoopF fuel size cur remaining s).1,
        size - remaining ≤ e.transferred ∧ e.transferred ≤ size ∧
        e.filename = cur.filename ∧ e.size = cur.size ∧ e.status = cur.status ∧
        e.direction = cur.direction ∧ e.errMsg = cur.errMsg) ∧
      (cur :: (recvLoopF fuel size cur remaining s).1).getLast? =
        some (recvLoopF fuel size cur remaining s).2.1 := by
  induction fuel with
  | zero =>
    intro size cur remaining s h0 hc
    simp [recvLoopF]
  | succ f ih =>
    intro size cur remaining s h0 hc
    by_cases hrem : 0 < remaining
    · cases hread : readBytes (min remaining 65536).toNat s with
      | none => simp [recvLoopF, hrem, hread]
      | some p =>
        obtain ⟨chunk, rest⟩ := p
        obtain ⟨hch, hrest, hchl, hsl⟩ := readBytes_some _ _ _ _ hread
        have hmin0 : (0 : Int) ≤ min remaining 65536 := by omega
        have hcl : (chunk.length : Int) = min remaining 65536 := by
          rw [hchl]
          exact Int.toNat_of_nonneg hmin0
        have h02 : (0 : Int) ≤ remaining - (chunk.length : Int) := by omega
        have hlt2 : remaining - (chunk.length : Int) ≤ remaining := by omega
        obtain ⟨ihch, ihmem, ihlast⟩ :=
          ih size { cur with transferred := size - (remaining - (chunk.length : Int)) }
            (remaining - (chunk.length : Int)) rest h02 rfl
        simp only [recvLoopF, if_pos hrem, hread]
        refine ⟨?_, ?_, ?_⟩
        · rw [List.chain'_cons]
          exact ⟨by simp; omega, ihch⟩
        · intro e he
          rcases List.mem_cons.mp he with rfl | he
          · refine ⟨?_, ?_, rfl, rfl, rfl, rfl, rfl⟩ <;> · simp; omega
          · obtain ⟨hb1, hb2, hf1, hf2, hf3, hf4, hf5⟩ := ihmem e he
            exact ⟨by omega, hb2, hf1, hf2, hf3, hf4, hf5⟩
        · rw [List.getLast?_cons_cons]
          exact ihlast
    · simp [recvLoopF, hrem]

end ByteHop

namespace ByteHop

theorem recvLoopF_exact (fuel : Nat) :
    ∀ (k : Nat) (size : Int) (cur : Session) (content extra : List Nat),
      content.length = k → k < fuel →
      ∃ tr fin chunks,
        recvLoopF fuel size cur (k : Int) (content ++ extra) =
          (tr, fin, Except.ok chunks, extra) ∧ chunks.flatten = content := by
  induction fuel with
  | zero => intro k _ _ _ _ _ hk; omega
  | succ f ih =>
    intro k size cur content extra hlen hk
    by_cases hk0 : 0 < k
    · have hrem : (0 : Int) < (k : Int) := by exact_mod_cast hk0
      have hmin : (min ((k : Nat) : Int) 65536).toNat = min k 65536 := by omega
      have hmle : min k 65536 ≤ content.length := by omega
      have hread : readBytes (min k 65536) (content ++ extra) =
          some (content.take (min k 65536), content.drop (min k 65536) ++ extra) := by
        unfold readBytes
        rw [if_pos (by simp; omega), List.take_append_of_le_length hmle,
          List.drop_append_of_le_length hmle]
      have htl : (content.take (min k 65536)).length = min k 65536 := by
        simp [List.length_take]
        omega
      have hcast : (k : Int) - ((content.take (min k 65536)).length : Int) =
          ((k - min k 65536 : Nat) : Int) := by
        rw [htl]
        push_cast
        omega
      obtain ⟨tr, fin, chunks, heq, hfl⟩ :=
        ih (k - min k 65536) size
          { cur with transferred := size - ((k - min k 65536 : Nat) : Int) }
          (content.drop (min k 65536)) extra (by simp; omega) (by omega)
      refine ⟨{ cur with transferred := size - ((k - min k 65536 : Nat) : Int) } :: tr,
        fin, content.take (min k 65536) :: chunks, ?_, ?_⟩
      · simp only [recvLoopF, if_pos hrem, hmin, hread, hcast, heq, Except.map]
      · simp [hfl, List.take_append_drop]
    · have hk0' : k = 0 := by omega
      subst hk0'
      have hc : content = [] := List.length_eq_zero.mp hlen
      subst hc
      exact ⟨[], cur, [], by simp [recvLoopF], rfl⟩

theorem handle_frame (opfsOk : Bool) (metaBytes tail : List Nat)
    (hlen : metaBytes.length ≤ 10000) :
    handleIncomingTransfer opfsOk (be4 metaBytes.length ++ metaBytes ++ tail) =
      (match parseMeta metaBytes with
       | none => errResult TErr.jsonParse tail
       | some (fnv, szv) => afterMeta opfsOk fnv szv tail) := by
  unfold handleIncomingTransfer
  have h4 : readBytes 4 (be4 metaBytes.length ++ (metaBytes ++ tail)) =
      some (be4 metaBytes.length, metaBytes ++ tail) := by
    have h := readBytes_exact (be4 metaBytes.length) (metaBytes ++ tail)
    rwa [be4_length] at h
  rw [List.append_assoc, h4]
  dsimp only
  rw [beUint32_be4 _ (by omega)]
  rw [if_neg (by omega)]
  rw [readBytes_exact metaBytes tail]

end ByteHop

namespace ByteHop

theorem getLast?_mem_list {α : Type _} {l : List α} {a : α} (h : l.getLast? = some a) :
    a ∈ l := by
  obtain ⟨hne, heq⟩ := List.mem_getLast?_eq_getLast (Option.mem_def.mpr h)
  rw [heq]
  exact List.getLast_mem hne

theorem recvRun_struct (fnv szv : Option JVal) (s2 : List Nat) :
    List.Chain' (fun a b => a.transferred ≤ b.transferred)
      (recvStart fnv szv :: (recvRun fnv szv s2).1) ∧
    (∀ e ∈ (recvRun fnv szv s2).1,
      e.filename = fnv ∧ e.size = szv ∧ e.status = Status.transferring ∧
      e.direction = Direction.receive ∧ e.errMsg = none ∧ 0 ≤ e.transferred ∧
      ∀ n, szv = some (JVal.num n) → e.transferred ≤ n) ∧
    (recvStart fnv szv :: (recvRun fnv szv s2).1).getLast? =
      some (recvRun fnv szv s2).2.1 := by
  unfold recvRun
  rcases szv with _ | jv
  · simp
  rcases jv with F | n
  · simp
  · by_cases hn : (0 : Int) ≤ n
    · obtain ⟨hch, hmem, hlast⟩ :=
        recvLoopF_trace (n.toNat + 1) n (recvStart fnv (some (JVal.num n))) n s2 hn
          (by simp [recvStart])
      refine ⟨hch, ?_, hlast⟩
      intro e he
      obtain ⟨hb1, hb2, hf1, hf2, hf3, hf4, hf5⟩ := hmem e he
      refine ⟨hf1, hf2, hf3, hf4, hf5, by simpa using hb1, ?_⟩
      intro m hm
      have hnm : n = m := by simpa using hm
      subst hnm
      exact hb2
    · have h1 : n.toNat = 0 := by omega
      dsimp only
      rw [h1]
      simp [recvLoopF, show ¬(0 : Int) < n by omega]

theorem afterMeta_trace_cases (opfsOk : Bool) (fnv szv : Option JVal) (s2 : List Nat) :
    (∃ e, (afterMeta opfsOk fnv szv s2).trace =
        recvStart fnv szv :: (recvRun fnv szv s2).1 ++ [errSession e] ∧
        (afterMeta opfsOk fnv szv s2).closes = 0 ∧
        (afterMeta opfsOk fnv szv s2).outcome = Except.error e) ∨
    ((afterMeta opfsOk fnv szv s2).trace =
        recvStart fnv szv :: (recvRun fnv szv s2).1 ++
          [{ (recvRun fnv szv s2).2.1 with status := Status.completed }] ∧
      (afterMeta opfsOk fnv szv s2).closes = 1 ∧
      (afterMeta opfsOk fnv szv s2).outcome = Except.ok ()) := by
  rcases h : recvRun fnv szv s2 with ⟨tr, fin, res, rest⟩
  unfold afterMeta
  rw [h]
  cases res with
  | ok chunks =>
    right
    refine ⟨by simp [h], rfl, rfl⟩
  | error e =>
    left
    exact ⟨e, by simp [h], rfl, rfl⟩

theorem afterMeta_none (opfsOk : Bool) (fnv : Option JVal) (s2 : List Nat) :
    afterMeta opfsOk fnv none s2 =
      { trace := [recvStart fnv none,
          { recvStart fnv none with status := Status.completed }],
        received := some (fnv, []),
        closes := 1, rest := s2,
        strategy := some (if opfsOk then Strategy.persistent else Strategy.memory),
        attempts := 1, outcome := Except.ok () } := rfl

theorem afterMeta_exact (opfsOk : Bool) (fnv : Option JVal) (content extra : List Nat) :
    ∃ (tr : List Session) (fin : Session),
      afterMeta opfsOk fnv (some (JVal.num (content.length : Int))) (content ++ extra) =
        { trace := recvStart fnv (some (JVal.num (content.length : Int))) :: tr
            ++ [{ fin with status := Status.completed }],
          received := some (fnv, content),
          closes := 1, rest := extra,
          strategy := some (if opfsOk then Strategy.persistent else Strategy.memory),
          attempts := 1, outcome := Except.ok () } := by
  obtain ⟨tr, fin, chunks, heq, hfl⟩ :=
    recvLoopF_exact (content.length + 1) content.length (content.length : Int)
      (recvStart fnv (some (JVal.num (content.length : Int)))) content extra rfl
      (by omega)
  refine ⟨tr, fin, ?_⟩
  unfold afterMeta recvRun
  dsimp only
  rw [show ((content.length : Int)).toNat = content.length from by omega, heq]
  simp [hfl]

theorem handle_cases (opfsOk : Bool) (s : List Nat) :
    (∃ e rest, handleIncomingTransfer opfsOk s = errResult e rest) ∨
    (∃ fnv szv s2, handleIncomingTransfer opfsOk s = afterMeta opfsOk fnv szv s2) := by
  unfold handleIncomingTransfer
  cases readBytes 4 s with
  | none => exact Or.inl ⟨_, _, rfl⟩
  | some p =>
    obtain ⟨lenBytes, s1⟩ := p
    dsimp only
    by_cases hlen : 10000 < beUint32 lenBytes
    · rw [if_pos hlen]
      exact Or.inl ⟨_, _, rfl⟩
    · rw [if_neg hlen]
      cases readBytes (beUint32 lenBytes) s1 with
      | none => exact Or.inl ⟨_, _, rfl⟩
      | some q =>
        obtain ⟨metaBytes, s2⟩ := q
        dsimp only
        cases parseMeta metaBytes with
        | none => exact Or.inl ⟨_, _, rfl⟩
        | some r =>
          obtain ⟨fnv, szv⟩ := r
          exact Or.inr ⟨fnv, szv, s2, rfl⟩

end ByteHop

namespace ByteHop

/-! ### Sender chunk-loop lemmas -/

theorem take_append_drop_len (l : List Nat) (n : Nat) :
    l.take n ++ l.drop (l.take n).length = l := by
  rcases le_or_lt n l.length with h | h
  · rw [List.length_take, min_eq_left h, List.take_append_drop]
  · rw [List.take_of_length_le (by omega), List.drop_length, List.append_nil]

theorem sendLoopF_wire (fuel : Nat) :
    ∀ (cur : Session) (content : List Nat) (offset : Nat),
      content.length - offset < fuel →
      ((sendLoopF fuel cur content offset).2.1).flatten = content.drop offset := by
  induction fuel with
  | zero => intro cur content offset h; omega
  | succ f ih =>
    intro cur content offset h
    by_cases ho : offset < content.length
    · have hcl : ((content.drop offset).take 65536).length =
          min 65536 (content.length - offset) := by
        simp [List.length_take]
      have hrec := ih { cur with transferred :=
          ((offset + ((content.drop offset).take 65536).length : Nat) : Int) }
        content (offset + ((content.drop offset).take 65536).length) (by omega)
      simp only [sendLoopF, if_pos ho, List.flatten_cons, hrec]
      have hdd : content.drop (offset + ((content.drop offset).take 65536).length) =
          (content.drop offset).drop (((content.drop offset).take 65536).length) := by
        rw [List.drop_drop]
        try (congr 1; omega)
      rw [hdd, take_append_drop_len]
    · simp [sendLoopF, ho]
      omega

theorem sendLoopF_trace (fuel : Nat) :
    ∀ (cur : Session) (content : List Nat) (offset : Nat),
      cur.transferred = (offset : Int) →
      List.Chain' (fun a b => a.transferred ≤ b.transferred)
        (cur :: (sendLoopF fuel cur content offset).1) ∧
      (∀ e ∈ (sendLoopF fuel cur content offset).1,
        (offset : Int) ≤ e.transferred ∧ e.transferred ≤ (content.length : Int) ∧
        e.filename = cur.filename ∧ e.size = cur.size ∧ e.status = cur.status ∧
        e.direction = cur.direction ∧ e.errMsg = cur.errMsg) ∧
      (cur :: (sendLoopF fuel cur content offset).1).getLast? =
        some (sendLoopF fuel cur content offset).2.2 := by
  induction fuel with
  | zero => intro cur content offset hc; simp [sendLoopF]
  | succ f ih =>
    intro cur content offset hc
    by_cases ho : offset < content.length
    · have hcl : ((content.drop offset).take 65536).length =
          min 65536 (content.length - offset) := by
        simp [List.length_take]
      obtain ⟨ihch, ihmem, ihlast⟩ :=
        ih { cur with transferred :=
            ((offset + ((content.drop offset).take 65536).length : Nat) : Int) }
          content (offset + ((content.drop offset).take 65536).length) rfl
      simp only [sendLoopF, if_pos ho]
      refine ⟨?_, ?_, ?_⟩
      · rw [List.chain'_cons]
        exact ⟨by simp [hc]; try omega, ihch⟩
      · intro e he
        rcases List.mem_cons.mp he with rfl | he
        · refine ⟨?_, ?_, rfl, rfl, rfl, rfl, rfl⟩ <;> · simp; try omega
        · obtain ⟨hb1, hb2, hf1, hf2, hf3, hf4, hf5⟩ := ihmem e he
          exact ⟨by push_cast at hb1 ⊢; omega, hb2, hf1, hf2, hf3, hf4, hf5⟩
      · rw [List.getLast?_cons_cons]
        exact ihlast
    · simp [sendLoopF, ho]

/-! ### Forward-lifecycle helpers -/

theorem forwardStep_of_transferring (a y : Session)
    (ha : a.status = Status.transferring) (hy : y.status ≠ Status.pending) :
    ForwardStep a y := by
  unfold ForwardStep statusRank
  rw [ha]
  cases hs : y.status <;> simp_all

theorem chain'_forward_of_transferring (l : List Session)
    (hl : ∀ e ∈ l, e.status = Status.transferring) :
    List.Chain' ForwardStep l := by
  induction l with
  | nil => simp
  | cons a t ih =>
    rw [List.chain'_cons']
    refine ⟨?_, ih fun e he => hl e (by simp [he])⟩
    intro y hy
    refine forwardStep_of_transferring a y (hl a (by simp)) ?_
    have hym : y ∈ t := List.mem_of_mem_head? hy
    rw [hl y (by simp [hym])]
    simp

theorem chain'_forward_append (l : List Session) (b : Session)
    (hl : ∀ e ∈ l, e.status = Status.transferring) (hb : b.status ≠ Status.pending) :
    List.Chain' ForwardStep (l ++ [b]) := by
  induction l with
  | nil => simp [List.chain'_singleton]
  | cons a t ih =>
    rw [List.cons_append, List.chain'_cons']
    refine ⟨?_, ih fun e he => hl e (by simp [he])⟩
    intro y hy
    apply forwardStep_of_transferring a y (hl a (by simp))
    rcases t with _ | ⟨c, t'⟩
    · simp at hy
      rw [← hy]
      exact hb
    · simp at hy
      rw [← hy]
      rw [hl c (by simp)]
      simp

end ByteHop

namespace ByteHop

theorem sendFile_wire_ok (fn content : List Nat) (peer : String) :
    (sendFile [⟨peer, true⟩] true fn content peer).wire =
      be4 (encodeMeta fn content.length).length ++ encodeMeta fn content.length
        ++ content ∧
    (sendFile [⟨peer, true⟩] true fn content peer).outcome = Except.ok () := by
  unfold sendFile
  rw [show List.filter (fun c => c.remotePeer == peer) [(⟨peer, true⟩ : Conn)] =
    [(⟨peer, true⟩ : Conn)] by simp]
  dsimp only
  rw [sendLoopF_wire (content.length + 1) _ content 0 (by omega), List.drop_zero]
  exact ⟨rfl, rfl⟩

end ByteHop
namespace ByteHop

theorem sendFile_struct (conns : List Conn) (dialOk : Bool) (fn content : List Nat)
    (peer : String) :
    List.Chain' (fun a b => a.transferred ≤ b.transferred)
      (sendFile conns dialOk fn content peer).trace ∧
    (∀ e ∈ (sendFile conns dialOk fn content peer).trace,
      0 ≤ e.transferred ∧ e.transferred ≤ (content.length : Int) ∧
      e.size = some (JVal.num (content.length : Int)) ∧
      e.direction = Direction.send) ∧
    ForwardTrace (sendFile conns dialOk fn content peer).trace ∧
    (sendFile conns dialOk fn content peer).trace.head?.map Session.status =
      some Status.pending := by
  unfold sendFile
  cases hf : List.filter (fun c => c.remotePeer == peer) conns with
  | nil =>
    dsimp only
    refine ⟨?_, ?_, ?_, rfl⟩
    · simp
    · intro e he
      simp only [List.mem_cons, List.not_mem_nil, or_false] at he
      rcases he with rfl | rfl <;> · simp; try positivity
    · simp [ForwardTrace, ForwardStep, statusRank]
  | cons c0 restC =>
    cases dialOk with
    | false =>
      dsimp only
      rw [if_neg (by simp)]
      refine ⟨?_, ?_, ?_, rfl⟩
      · simp
      · intro e he
        simp only [List.mem_cons, List.not_mem_nil, or_false] at he
        rcases he with rfl | rfl <;> · simp; try positivity
      · simp [ForwardTrace, ForwardStep, statusRank]
    | true =>
      dsimp only
      rw [if_pos rfl]
      dsimp only
      obtain ⟨lch, lmem, llast⟩ :=
        sendLoopF_trace (content.length + 1)
          { filename := some (JVal.str fn),
            size := some (JVal.num (content.length : Int)), transferred := 0,
            status := Status.transferring, direction := Direction.send,
            errMsg := none } content 0 (by simp)
      set s1 : Session :=
        { filename := some (JVal.str fn),
          size := some (JVal.num (content.length : Int)), transferred := 0,
          status := Status.transferring, direction := Direction.send,
          errMsg := none } with hs1
      set lp := sendLoopF (content.length + 1) s1 content 0 with hlp
      have hfin : lp.2.2 ∈ s1 :: lp.1 := getLast?_mem_list llast
      have hfinb : 0 ≤ lp.2.2.transferred ∧
          lp.2.2.transferred ≤ (content.length : Int) ∧
          lp.2.2.size = some (JVal.num (content.length : Int)) ∧
          lp.2.2.status = Status.transferring ∧
          lp.2.2.direction = Direction.send := by
        rcases List.mem_cons.mp hfin with h | h
        · rw [h]
          simp [hs1]
        · obtain ⟨hb1, hb2, _, hf2, hf3, hf4, _⟩ := lmem _ h
          exact ⟨by simpa using hb1, hb2, by simpa [hs1] using hf2,
            by simpa [hs1] using hf3, by simpa [hs1] using hf4⟩
      refine ⟨?_, ?_, ?_, rfl⟩
      · rw [List.chain'_append]
        refine ⟨?_, List.chain'_singleton _, ?_⟩
        · rw [List.chain'_cons]
          exact ⟨by simp [hs1], lch⟩
        · intro x hx y hy
          rw [List.getLast?_cons_cons, Option.mem_def, llast] at hx
          simp only [Option.some.injEq] at hx
          subst hx
          simp only [List.head?_cons, Option.mem_def, Option.some.injEq] at hy
          rw [← hy]
      · intro e he
        rcases List.mem_append.mp he with he | he
        · rcases List.mem_cons.mp he with rfl | he
          · simp
          rcases List.mem_cons.mp he with rfl | he
          · simp [hs1]
          obtain ⟨hb1, hb2, _, hf2, hf3, hf4, _⟩ := lmem _ he
          exact ⟨by simpa using hb1, hb2, by simpa [hs1] using hf2,
            by simpa [hs1] using hf4⟩
        · simp only [List.mem_singleton] at he
          subst he
          exact ⟨hfinb.1, hfinb.2.1, by simpa using hfinb.2.2.1,
            by simpa using hfinb.2.2.2.2⟩
      · unfold ForwardTrace
        rw [List.chain'_append]
        refine ⟨?_, List.chain'_singleton _, ?_⟩
        · rw [List.chain'_cons]
          constructor
          · unfold ForwardStep statusRank
            simp [hs1]
          · apply chain'_forward_of_transferring
            intro e he
            rcases List.mem_cons.mp he with rfl | he
            · rfl
            · exact (lmem e he).2.2.2.2.1
        · intro x hx y hy
          rw [List.getLast?_cons_cons, Option.mem_def, llast] at hx
          simp only [Option.some.injEq] at hx
          subst hx
          simp only [List.head?_cons, Option.mem_def, Option.some.injEq] at hy
          rw [← hy]
          exact forwardStep_of_transferring _ _ hfinb.2.2.2.1 (by simp)

end ByteHop

namespace ByteHop

/-! ### Handler (re)registration lemmas -/

theorem registerProtocol_fixed (st : HostState) (h : st.protocolRegistered = true) :
    registerProtocol st = st := by
  simp [registerProtocol, h]

theorem registerProtocol_iterate (n : Nat) (hn : 1 ≤ n) :
    registerProtocol^[n] initialHost =
      { protocolRegistered := true, handlers := [FILE_TRANSFER_PROTOCOL] } := by
  obtain ⟨m, rfl⟩ : ∃ m, n = m + 1 := ⟨n - 1, by omega⟩
  rw [Function.iterate_succ_apply]
  have h1 : registerProtocol initialHost =
      { protocolRegistered := true, handlers := [FILE_TRANSFER_PROTOCOL] } := by
    simp [registerProtocol, initialHost, unhandleP]
  rw [h1]
  exact Function.iterate_fixed (registerProtocol_fixed _ rfl) m

/-! ### Code registry lemmas -/

theorem lookup_filter_ne (reg : CodeRegistry) (code : String) :
    List.lookup code (List.filter (fun kv => kv.1 ≠ code) reg) = none := by
  induction reg with
  | nil => rfl
  | cons kv t ih =>
    obtain ⟨k, v⟩ := kv
    rw [List.filter_cons]
    by_cases h : k = code
    · rw [if_neg (by simp [h])]
      exact ih
    · rw [if_pos (by simp [h])]
      have hbk : (code == k) = false := by
        rw [beq_eq_false_iff_ne]
        exact fun hc => h hc.symm
      simp only [List.lookup, hbk]
      exact ih

theorem lookup_mem_keys (reg : CodeRegistry) (code : String) (e : CodeEntry)
    (h : List.lookup code reg = some e) : code ∈ reg.map Prod.fst := by
  induction reg with
  | nil => cases h
  | cons kv t ih =>
    obtain ⟨k, v⟩ := kv
    cases hbk : (code == k) with
    | true =>
      have hkc : code = k := beq_iff_eq.mp hbk
      simp [hkc]
    | false =>
      simp only [List.lookup, hbk] at h
      simp [ih h]

theorem lookup_none_filter (reg : CodeRegistry) (code : String)
    (p : String × CodeEntry → Bool) (h : List.lookup code reg = none) :
    List.lookup code (List.filter p reg) = none := by
  induction reg with
  | nil => rfl
  | cons kv t ih =>
    obtain ⟨k, v⟩ := kv
    cases hbk : (code == k) with
    | true =>
      exfalso
      simp only [List.lookup, hbk] at h
      cases h
    | false =>
      simp only [List.lookup, hbk] at h
      rw [List.filter_cons]
      by_cases hp : p (k, v) = true
      · rw [if_pos hp]
        simp only [List.lookup, hbk]
        exact ih h
      · rw [if_neg hp]
        exact ih h

theorem lookup_filter_keep (reg : CodeRegistry) (code : String) (e : CodeEntry)
    (p : String × CodeEntry → Bool)
    (h : List.lookup code reg = some e) (hp : p (code, e) = true) :
    List.lookup code (List.filter p reg) = some e := by
  induction reg with
  | nil => cases h
  | cons kv t ih =>
    obtain ⟨k, v⟩ := kv
    cases hbk : (code == k) with
    | true =>
      simp only [List.lookup, hbk] at h
      have hv : v = e := by simpa using h
      have hkc : code = k := beq_iff_eq.mp hbk
      subst hv
      subst hkc
      rw [List.filter_cons, if_pos hp]
      simp [List.lookup]
    | false =>
      simp only [List.lookup, hbk] at h
      rw [List.filter_cons]
      by_cases hpkv : p (k, v) = true
      · rw [if_pos hpkv]
        simp only [List.lookup, hbk]
        exact ih h
      · rw [if_neg hpkv]
        exact ih h

theorem lookup_filter_drop (reg : CodeRegistry) (code : String) (e : CodeEntry)
    (p : String × CodeEntry → Bool)
    (hnd : (reg.map Prod.fst).Nodup)
    (h : List.lookup code reg = some e) (hp : p (code, e) = false) :
    List.lookup code (List.filter p reg) = none := by
  induction reg with
  | nil => cases h
  | cons kv t ih =>
    obtain ⟨k, v⟩ := kv
    rw [List.map_cons, List.nodup_cons] at hnd
    cases hbk : (code == k) with
    | true =>
      simp only [List.lookup, hbk] at h
      have hv : v = e := by simpa using h
      have hkc : code = k := beq_iff_eq.mp hbk
      subst hv
      subst hkc
      rw [List.filter_cons, if_neg (by simp [hp])]
      apply lookup_none_filter
      cases hlt : List.lookup code t with
      | none => rfl
      | some w =>
        exact absurd (lookup_mem_keys t code w hlt) hnd.1
    | false =>
      simp only [List.lookup, hbk] at h
      rw [List.filter_cons]
      by_cases hpkv : p (k, v) = true
      · rw [if_pos hpkv]
        simp only [List.lookup, hbk]
        exact ih hnd.2 h
      · rw [if_neg hpkv]
        exact ih hnd.2 h

end ByteHop

namespace ByteHop

/-- C3: for every inbound stream whose 4-byte header decodes to a metadata
length greater than 10000 (ProtocolViolation), the receiver fails the session
with the `Invalid metadata length` error immediately: the whole run result is
the error record, the trace is the single error entry, no received file is
produced, and no byte beyond the 4-byte prefix is consumed (`rest` is exactly
the stream suffix after those 4 bytes). -/
theorem c3_oversized_header_rejected (opfsOk : Bool) (b0 b1 b2 b3 : Nat)
    (rest : List Nat) (h : 10000 < beUint32 [b0, b1, b2, b3]) :
    handleIncomingTransfer opfsOk (b0 :: b1 :: b2 :: b3 :: rest) =
      errResult (TErr.invalidMetaLength (beUint32 [b0, b1, b2, b3])) rest ∧
    (handleIncomingTransfer opfsOk (b0 :: b1 :: b2 :: b3 :: rest)).rest = rest ∧
    (handleIncomingTransfer opfsOk (b0 :: b1 :: b2 :: b3 :: rest)).received = none ∧
    (handleIncomingTransfer opfsOk (b0 :: b1 :: b2 :: b3 :: rest)).trace =
      [errSession (TErr.invalidMetaLength (beUint32 [b0, b1, b2, b3]))] := by
  have hmain : handleIncomingTransfer opfsOk (b0 :: b1 :: b2 :: b3 :: rest) =
      errResult (TErr.invalidMetaLength (beUint32 [b0, b1, b2, b3])) rest := by
    unfold handleIncomingTransfer
    have h4 := readBytes_exact [b0, b1, b2, b3] rest
    rw [show (([b0, b1, b2, b3] : List Nat)).length = 4 from rfl] at h4
    rw [show b0 :: b1 :: b2 :: b3 :: rest = [b0, b1, b2, b3] ++ rest from rfl, h4]
    dsimp only
    rw [if_pos h]
  exact ⟨hmain, by rw [hmain]; rfl, by rw [hmain]; rfl, by rw [hmain]; rfl⟩

/-- Witness for C3 at the concrete header declaring length 10001
(bytes 0,0,39,17) followed by three junk bytes. -/
theorem c3_witness :
    10000 < beUint32 [0, 0, 39, 17] ∧
    (handleIncomingTransfer false [0, 0, 39, 17, 1, 2, 3]).rest = [1, 2, 3] ∧
    (handleIncomingTransfer false [0, 0, 39, 17, 1, 2, 3]).received = none := by
  refine ⟨by decide, ?_, ?_⟩
  · exact (c3_oversized_header_rejected false 0 0 39 17 [1, 2, 3] (by decide)).2.1
  · exact (c3_oversized_header_rejected false 0 0 39 17 [1, 2, 3] (by decide)).2.2.1

/-- C5 (amended): the inbound handler closes the stream exactly once on the
success path and never closes it on any failure path (the catch block does
not close the stream): the number of `stream.close()` calls is at most 1 and
equals 1 exactly when the handler body did not throw. -/
theorem c5_close_amended (opfsOk : Bool) (s : List Nat) :
    (handleIncomingTransfer opfsOk s).closes ≤ 1 ∧
    ((handleIncomingTransfer opfsOk s).closes = 1 ↔
      (handleIncomingTransfer opfsOk s).outcome = Except.ok ()) := by
  rcases handle_cases opfsOk s with ⟨e, rest, heq⟩ | ⟨fnv, szv, s2, heq⟩
  · rw [heq]
    constructor
    · exact Nat.zero_le 1
    · simp [errResult]
  · rw [heq]
    rcases afterMeta_trace_cases opfsOk fnv szv s2 with ⟨er, _, hc, ho⟩ | ⟨_, hc, ho⟩
    · rw [hc, ho]
      simp
    · rw [hc, ho]
      simp

/-- Counterexample to C5 as stated: on the error path (here an oversized
header) the handler performs zero `stream.close()` calls, not exactly one. -/
theorem c5_counterexample :
    (handleIncomingTransfer false [0, 0, 39, 17]).closes = 0 ∧
    (handleIncomingTransfer false [0, 0, 39, 17]).outcome =
      Except.error (TErr.invalidMetaLength 10001) := ⟨rfl, rfl⟩

/-- C6 (amended): the receiver performs no validation of the parsed metadata
fields.  A well-framed stream whose metadata JSON parses but lacks a `size`
member is not rejected with MalformedMetadata: the payload loop is skipped
(`undefined > 0` is false) and the session immediately completes with an
empty blob. -/
theorem c6_missing_size_completes (opfsOk : Bool) (fnv : Option JVal)
    (metaBytes tail : List Nat)
    (hlen : metaBytes.length ≤ 10000)
    (hparse : parseMeta metaBytes = some (fnv, none)) :
    handleIncomingTransfer opfsOk (be4 metaBytes.length ++ metaBytes ++ tail) =
      { trace := [recvStart fnv none,
          { recvStart fnv none with status := Status.completed }],
        received := some (fnv, []), closes := 1, rest := tail,
        strategy := some (if opfsOk then Strategy.persistent else Strategy.memory),
        attempts := 1, outcome := Except.ok () } := by
  rw [handle_frame opfsOk metaBytes tail hlen, hparse]
  exact afterMeta_none opfsOk fnv tail

/-- Counterexample to C6 as stated: the stream framing a metadata object
with a filename but no `size` member completes successfully (status goes
`transferring` then `completed`, an empty received file is pushed) instead
of failing with MalformedMetadata. -/
theorem c6_counterexample :
    (handleIncomingTransfer false ([0, 0, 0, 16] ++
      [123, 34, 102, 105, 108, 101, 110, 97, 109, 101, 34, 58, 34, 97, 34, 125])).outcome
      = Except.ok () ∧
    (handleIncomingTransfer false ([0, 0, 0, 16] ++
      [123, 34, 102, 105, 108, 101, 110, 97, 109, 101, 34, 58, 34, 97, 34, 125])).trace.map
        Session.status = [Status.transferring, Status.completed] ∧
    (handleIncomingTransfer false ([0, 0, 0, 16] ++
      [123, 34, 102, 105, 108, 101, 110, 97, 109, 101, 34, 58, 34, 97, 34, 125])).received
      = some (some (JVal.str [97]), []) := ⟨rfl, rfl, rfl⟩

/-- Witness for C6 (amended) at the concrete metadata object whose filename
is the single byte `b` and which has no `size` member. -/
theorem c6_witness :
    ([123, 34, 102, 105, 108, 101, 110, 97, 109, 101, 34, 58, 34, 98, 34, 125] :
      List Nat).length ≤ 10000 ∧
    parseMeta [123, 34, 102, 105, 108, 101, 110, 97, 109, 101, 34, 58, 34, 98, 34, 125] =
      some (some (JVal.str [98]), none) ∧
    handleIncomingTransfer false
        (be4 ([123, 34, 102, 105, 108, 101, 110, 97, 109, 101, 34, 58, 34, 98, 34, 125] :
          List Nat).length ++
          [123, 34, 102, 105, 108, 101, 110, 97, 109, 101, 34, 58, 34, 98, 34, 125] ++ [5]) =
      { trace := [recvStart (some (JVal.str [98])) none,
          { recvStart (some (JVal.str [98])) none with status := Status.completed }],
        received := some (some (JVal.str [98]), []), closes := 1, rest := [5],
        strategy := some Strategy.memory,
        attempts := 1, outcome := Except.ok () } := by
  refine ⟨by decide, by decide, ?_⟩
  exact c6_missing_size_completes false (some (JVal.str [98]))
    [123, 34, 102, 105, 108, 101, 110, 97, 109, 101, 34, 58, 34, 98, 34, 125] [5]
    (by decide) (by decide)

/-- C8: registering the inbound protocol handler is idempotent.  After any
positive number of `registerProtocol` calls starting from a fresh host,
exactly one handler is installed for the file-transfer protocol id, and one
inbound stream therefore produces exactly one receive session. -/
theorem c8_registration_idempotent (n : Nat) (hn : 1 ≤ n) (opfsOk : Bool)
    (s : List Nat) :
    (registerProtocol^[n] initialHost).handlers = [FILE_TRANSFER_PROTOCOL] ∧
    (inboundSessions (registerProtocol^[n] initialHost) opfsOk s).length = 1 := by
  rw [registerProtocol_iterate n hn]
  refine ⟨rfl, ?_⟩
  simp [inboundSessions]

/-- Witness for C8 at n = 2 (double registration) and an empty inbound
stream. -/
theorem c8_witness :
    1 ≤ 2 ∧
    (registerProtocol^[2] initialHost).handlers = [FILE_TRANSFER_PROTOCOL] ∧
    (inboundSessions (registerProtocol^[2] initialHost) false []).length = 1 :=
  ⟨by decide, (c8_registration_idempotent 2 (by decide) false []).1,
    (c8_registration_idempotent 2 (by decide) false []).2⟩

/-- C9: a code registry entry looked up strictly more than the 5-minute TTL
after creation is deleted and reported not found, and the periodic sweep
also removes it; a lookup at or before the TTL returns the registered
address and leaves the registry unchanged, and the sweep keeps the entry
(assuming the JS `Map` key-uniqueness invariant on the modelled list). -/
theorem c9_code_ttl (reg : CodeRegistry) (code addr : String)
    (created now1 now2 : Nat)
    (hnd : (reg.map Prod.fst).Nodup)
    (hfound : List.lookup code reg = some ⟨addr, created⟩) :
    (CODE_EXPIRY_MS < now1 - created →
      (lookupCode reg code now1).2 = none ∧
      List.lookup code (lookupCode reg code now1).1 = none ∧
      List.lookup code (sweepCodes reg now1) = none) ∧
    (now2 - created ≤ CODE_EXPIRY_MS →
      lookupCode reg code now2 = (reg, some addr) ∧
      List.lookup code (sweepCodes reg now2) = some ⟨addr, created⟩) := by
  constructor
  · intro h1
    have hlc : lookupCode reg code now1 =
        (List.filter (fun kv => kv.1 ≠ code) reg, none) := by
      unfold lookupCode
      rw [hfound]
      dsimp only
      rw [if_pos h1]
    rw [hlc]
    refine ⟨rfl, lookup_filter_ne reg code, ?_⟩
    unfold sweepCodes
    apply lookup_filter_drop reg code ⟨addr, created⟩ _ hnd hfound
    simp [h1]
  · intro h2
    constructor
    · unfold lookupCode
      rw [hfound]
      dsimp only
      rw [if_neg (by omega)]
    · unfold sweepCodes
      apply lookup_filter_keep reg code ⟨addr, created⟩ _ hfound
      simp
      omega

/-- Witness for C9: one entry registered at time 0, looked up 1 s after the
TTL (deleted, not found) and 1 s before the TTL (address returned). -/
theorem c9_witness :
    (([((Nat.repr 847291 : String), (⟨addrA, 0⟩ : CodeEntry))] :
      CodeRegistry).map Prod.fst).Nodup ∧
    List.lookup (Nat.repr 847291)
      ([((Nat.repr 847291 : String), (⟨addrA, 0⟩ : CodeEntry))] : CodeRegistry) =
      some ⟨addrA, 0⟩ ∧
    CODE_EXPIRY_MS < (CODE_EXPIRY_MS + 1000) - 0 ∧
    (lookupCode [((Nat.repr 847291 : String), (⟨addrA, 0⟩ : CodeEntry))]
      (Nat.repr 847291) (CODE_EXPIRY_MS + 1000)).2 = none ∧
    (CODE_EXPIRY_MS - 1000) - 0 ≤ CODE_EXPIRY_MS ∧
    lookupCode [((Nat.repr 847291 : String), (⟨addrA, 0⟩ : CodeEntry))]
      (Nat.repr 847291) (CODE_EXPIRY_MS - 1000) =
      ([((Nat.repr 847291 : String), (⟨addrA, 0⟩ : CodeEntry))], some addrA) := by
  have h := c9_code_ttl
    [((Nat.repr 847291 : String), (⟨addrA, 0⟩ : CodeEntry))]
    (Nat.repr 847291) addrA 0 (CODE_EXPIRY_MS + 1000) (CODE_EXPIRY_MS - 1000)
    (by simp) (by simp [List.lookup])
  refine ⟨by simp, by simp [List.lookup], by decide, ?_, by decide, ?_⟩
  · exact (h.1 (by decide)).1
  · exact ((h.2 (by decide)).1)

/-- C10: every code the generator returns is a 6-digit decimal number in the
range 100000–999999 that is not already a key of the registry, so
registering it never overwrites an existing entry (all previous lookups are
preserved after the `set`). -/
theorem c10_generate_code (draws : List Nat) (reg : CodeRegistry) (c : Nat)
    (e : CodeEntry)
    (hd : ∀ d ∈ draws, d < 900000)
    (hgen : generateCode draws reg = some c) :
    100000 ≤ c ∧ c ≤ 999999 ∧ (Nat.digits 10 c).length = 6 ∧
    List.lookup (Nat.repr c) reg = none ∧
    (∀ k v, List.lookup k reg = some v →
      List.lookup k (registerCode reg c e) = some v) := by
  induction draws with
  | nil => cases hgen
  | cons d rest ih =>
    unfold generateCode at hgen
    by_cases hs : (List.lookup (Nat.repr (100000 + d)) reg).isSome = true
    · rw [if_pos hs] at hgen
      exact ih (fun x hx => hd x (by simp [hx])) hgen
    · rw [if_neg hs] at hgen
      have hc : c = 100000 + d := by
        simpa using hgen.symm
      subst hc
      have hdlt := hd d (by simp)
      have hlook : List.lookup (Nat.repr (100000 + d)) reg = none := by
        cases hx : List.lookup (Nat.repr (100000 + d)) reg with
        | none => rfl
        | some w => exact absurd (by simp [hx]) hs
      refine ⟨by omega, by omega, ?_, hlook, ?_⟩
      · have hlog : Nat.log 10 (100000 + d) = 5 :=
          Nat.log_eq_of_pow_le_of_lt_pow (by norm_num) (by norm_num; omega)
        rw [Nat.digits_len 10 _ (by norm_num) (by omega), hlog]
      · intro k v hk
        unfold registerCode
        cases hbk : (k == Nat.repr (100000 + d)) with
        | true =>
          exfalso
          have hkr : k = Nat.repr (100000 + d) := beq_iff_eq.mp hbk
          rw [hkr, hlook] at hk
          cases hk
        | false =>
          simp only [List.lookup, hbk]
          exact hk

/-- Witness for C10: the first draw 0 against an empty registry yields the
code 100000 with all the guaranteed properties. -/
theorem c10_witness :
    (∀ d ∈ ([0] : List Nat), d < 900000) ∧
    generateCode [0] [] = some 100000 ∧
    (100000 ≤ 100000 ∧ 100000 ≤ 999999 ∧ (Nat.digits 10 100000).length = 6 ∧
      List.lookup (Nat.repr 100000) ([] : CodeRegistry) = none ∧
      (∀ k v, List.lookup k ([] : CodeRegistry) = some v →
        List.lookup k (registerCode [] 100000 ⟨addrA, 0⟩) = some v)) := by
  refine ⟨by decide, rfl, ?_⟩
  exact c10_generate_code [0] [] 100000 ⟨addrA, 0⟩ (by decide) rfl

end ByteHop

namespace ByteHop

theorem escape_replicate_97 (k : Nat) :
    escapeString (List.replicate k 97) = List.replicate k 97 := by
  induction k with
  | zero => rfl
  | succ m ih =>
    rw [List.replicate_succ]
    rw [show escapeString (97 :: List.replicate m 97) =
      escapeByte 97 ++ escapeString (List.replicate m 97) by simp [escapeString]]
    rw [show escapeByte 97 = [97] by decide, ih]
    rfl

theorem encodeMeta_length (fn : List Nat) (n : Nat) :
    (encodeMeta fn n).length =
      23 + (escapeString fn).length + (natDecBytes n).length := by
  simp [encodeMeta, keyFilename, keySize]
  omega

theorem handle_oversized (opfsOk : Bool) (L : Nat) (tail : List Nat)
    (h1 : 10000 < L) (h2 : L < 4294967296) :
    handleIncomingTransfer opfsOk (be4 L ++ tail) =
      errResult (TErr.invalidMetaLength L) tail := by
  unfold handleIncomingTransfer
  have h4 := readBytes_exact (be4 L) tail
  rw [be4_length] at h4
  rw [h4]
  dsimp only
  rw [beUint32_be4 L h2, if_pos h1]

/-- C2 (amended): encoding with the sender and decoding with the receiver
reproduces the payload bytes and the filename exactly, for the claim's
payload sizes, provided the filename keeps the encoded metadata within the
receiver's 10000-byte header bound (the sender does not enforce any bound,
so over-long filenames are rejected by the receiver — see the
counterexample). -/
theorem c2_roundtrip_amended (opfsOk : Bool) (fn content : List Nat) (peer : String)
    (hN : content.length = 0 ∨ content.length = 1 ∨ content.length = 65536 ∨
      content.length = 196625)
    (hmeta : (encodeMeta fn content.length).length ≤ 10000) :
    (handleIncomingTransfer opfsOk
        (sendFile [⟨peer, true⟩] true fn content peer).wire).received =
      some (some (JVal.str fn), content) ∧
    (handleIncomingTransfer opfsOk
        (sendFile [⟨peer, true⟩] true fn content peer).wire).outcome =
      Except.ok () ∧
    ((handleIncomingTransfer opfsOk
        (sendFile [⟨peer, true⟩] true fn content peer).wire).trace.getLast?).map
      Session.status = some Status.completed := by
  obtain ⟨hwire, _⟩ := sendFile_wire_ok fn content peer
  rw [hwire]
  rw [handle_frame opfsOk (encodeMeta fn content.length) content hmeta]
  rw [parseMeta_encode fn content.length]
  dsimp only
  obtain ⟨tr, fin, heq⟩ := afterMeta_exact opfsOk (some (JVal.str fn)) content []
  rw [List.append_nil] at heq
  rw [heq]
  refine ⟨rfl, rfl, ?_⟩
  dsimp only
  rw [List.getLast?_concat]
  rfl

/-- Counterexample to C2 as stated: a filename of 9977 bytes makes the
encoded metadata 10001 bytes long, so the receiver rejects the stream the
sender produced and nothing is reproduced — the round-trip fails for this
filename even at payload size 0. -/
theorem c2_counterexample :
    (handleIncomingTransfer false
      (sendFile [⟨peerA, true⟩] true (List.replicate 9977 97) [] peerA).wire).received
      = none ∧
    (handleIncomingTransfer false
      (sendFile [⟨peerA, true⟩] true (List.replicate 9977 97) [] peerA).wire).outcome
      = Except.error (TErr.invalidMetaLength 10001) := by
  obtain ⟨hwire, _⟩ := sendFile_wire_ok (List.replicate 9977 97) [] peerA
  have hL : (encodeMeta (List.replicate 9977 97) 0).length = 10001 := by
    rw [encodeMeta_length, escape_replicate_97, List.length_replicate]
    rfl
  rw [hwire]
  simp only [List.length_nil, List.append_nil]
  rw [hL]
  rw [handle_oversized false 10001 _ (by norm_num) (by norm_num)]
  exact ⟨rfl, rfl⟩

/-- Witness for C2 (amended) at filename `a` and the empty payload. -/
theorem c2_witness :
    (([] : List Nat).length = 0 ∨ ([] : List Nat).length = 1 ∨
      ([] : List Nat).length = 65536 ∨ ([] : List Nat).length = 196625) ∧
    (encodeMeta [97] ([] : List Nat).length).length ≤ 10000 ∧
    (handleIncomingTransfer false
        (sendFile [⟨peerA, true⟩] true [97] [] peerA).wire).received =
      some (some (JVal.str [97]), []) := by
  refine ⟨Or.inl rfl, by decide, ?_⟩
  exact (c2_roundtrip_amended false [97] [] peerA (Or.inl rfl) (by decide)).1

/-- C7: when persistent (OPFS) storage acquisition fails, the receive
session commits to the in-memory strategy for its whole lifetime (the single
acquisition attempt is recorded), still reaches `completed`, and the
finalized blob holds exactly the bytes that were sent. -/
theorem c7_memory_fallback (fn content : List Nat)
    (hmeta : (encodeMeta fn content.length).length ≤ 10000) :
    (handleIncomingTransfer false
        (be4 (encodeMeta fn content.length).length ++
          encodeMeta fn content.length ++ content)).strategy =
      some Strategy.memory ∧
    (handleIncomingTransfer false
        (be4 (encodeMeta fn content.length).length ++
          encodeMeta fn content.length ++ content)).attempts = 1 ∧
    (handleIncomingTransfer false
        (be4 (encodeMeta fn content.length).length ++
          encodeMeta fn content.length ++ content)).received =
      some (some (JVal.str fn), content) ∧
    (handleIncomingTransfer false
        (be4 (encodeMeta fn content.length).length ++
          encodeMeta fn content.length ++ content)).outcome = Except.ok () ∧
    ((handleIncomingTransfer false
        (be4 (encodeMeta fn content.length).length ++
          encodeMeta fn content.length ++ content)).trace.getLast?).map
      Session.status = some Status.completed := by
  rw [handle_frame false (encodeMeta fn content.length) content hmeta]
  rw [parseMeta_encode fn content.length]
  dsimp only
  obtain ⟨tr, fin, heq⟩ := afterMeta_exact false (some (JVal.str fn)) content []
  rw [List.append_nil] at heq
  rw [heq]
  refine ⟨rfl, rfl, rfl, rfl, ?_⟩
  dsimp only
  rw [List.getLast?_concat]
  rfl

/-- Witness for C7 at filename `c` and payload bytes 1, 2, 3. -/
theorem c7_witness :
    (encodeMeta [99] ([1, 2, 3] : List Nat).length).length ≤ 10000 ∧
    (handleIncomingTransfer false
        (be4 (encodeMeta [99] ([1, 2, 3] : List Nat).length).length ++
          encodeMeta [99] ([1, 2, 3] : List Nat).length ++ [1, 2, 3])).strategy =
      some Strategy.memory ∧
    (handleIncomingTransfer false
        (be4 (encodeMeta [99] ([1, 2, 3] : List Nat).length).length ++
          encodeMeta [99] ([1, 2, 3] : List Nat).length ++ [1, 2, 3])).received =
      some (some (JVal.str [99]), [1, 2, 3]) := by
  refine ⟨by decide, ?_, ?_⟩
  · exact (c7_memory_fallback [99] [1, 2, 3] (by decide)).1
  · exact (c7_memory_fallback [99] [1, 2, 3] (by decide)).2.2.1

end ByteHop

namespace ByteHop

/-- C4 (amended): every session status history is forward-only (stage rank
never decreases and terminal states are never left), and the sender creates
its session as `pending`; the receiver however never uses `pending` at all —
it creates its session directly in `transferring` after decoding the header
(and its error path writes a fresh `error` entry). -/
theorem c4_lifecycle_amended (opfsOk : Bool) (s : List Nat) (conns : List Conn)
    (dialOk : Bool) (fn content : List Nat) (peer : String) :
    (ForwardTrace (handleIncomingTransfer opfsOk s).trace ∧
      ∀ e ∈ (handleIncomingTransfer opfsOk s).trace,
        e.status ≠ Status.pending ∧ e.direction = Direction.receive) ∧
    (ForwardTrace (sendFile conns dialOk fn content peer).trace ∧
      (sendFile conns dialOk fn content peer).trace.head?.map Session.status =
        some Status.pending) := by
  constructor
  · rcases handle_cases opfsOk s with ⟨e, rest, heq⟩ | ⟨fnv, szv, s2, heq⟩
    · rw [heq]
      constructor
      · exact List.chain'_singleton _
      · intro x hx
        simp only [errResult, List.mem_singleton] at hx
        subst hx
        exact ⟨by simp [errSession], rfl⟩
    · rw [heq]
      obtain ⟨hch, hmem, hlast⟩ := recvRun_struct fnv szv s2
      have hall : ∀ e ∈ recvStart fnv szv :: (recvRun fnv szv s2).1,
          e.status = Status.transferring := by
        intro e he
        rcases List.mem_cons.mp he with rfl | he
        · rfl
        · exact (hmem e he).2.2.1
      rcases afterMeta_trace_cases opfsOk fnv szv s2 with ⟨er, htr, _, _⟩ | ⟨htr, _, _⟩
      · rw [htr]
        constructor
        · exact chain'_forward_append _ _ hall (by simp [errSession])
        · intro x hx
          rcases List.mem_append.mp hx with hx | hx
          · rw [hall x hx]
            refine ⟨by simp, ?_⟩
            rcases List.mem_cons.mp hx with rfl | hx
            · rfl
            · exact (hmem x hx).2.2.2.1
          · simp only [List.mem_singleton] at hx
            subst hx
            exact ⟨by simp [errSession], rfl⟩
      · rw [htr]
        have hfin : (recvRun fnv szv s2).2.1 ∈
            recvStart fnv szv :: (recvRun fnv szv s2).1 := getLast?_mem_list hlast
        constructor
        · exact chain'_forward_append _ _ hall (by simp)
        · intro x hx
          rcases List.mem_append.mp hx with hx | hx
          · rw [hall x hx]
            refine ⟨by simp, ?_⟩
            rcases List.mem_cons.mp hx with rfl | hx
            · rfl
            · exact (hmem x hx).2.2.2.1
          · simp only [List.mem_singleton] at hx
            subst hx
            refine ⟨by simp, ?_⟩
            show (recvRun fnv szv s2).2.1.direction = Direction.receive
            rcases List.mem_cons.mp hfin with hf | hf
            · rw [hf]
              rfl
            · exact (hmem _ hf).2.2.2.1
  · obtain ⟨_, _, hft, hhd⟩ := sendFile_struct conns dialOk fn content peer
    exact ⟨hft, hhd⟩

/-- Counterexample to C4 as stated: on a well-formed inbound stream the
receiver's very first registry write already has status `transferring` —
there is no `pending` stage on the receive side at all. -/
theorem c4_counterexample :
    (handleIncomingTransfer false ([0, 0, 0, 16] ++
      [123, 34, 102, 105, 108, 101, 110, 97, 109, 101, 34, 58, 34, 99, 34, 125])).trace.head?.map
        Session.status = some Status.transferring ∧
    ∀ e ∈ (handleIncomingTransfer false ([0, 0, 0, 16] ++
      [123, 34, 102, 105, 108, 101, 110, 97, 109, 101, 34, 58, 34, 99, 34, 125])).trace,
      e.status ≠ Status.pending := by
  exact ⟨rfl, by decide⟩

end ByteHop

namespace ByteHop

/-- C1 (amended): `transferred` stays within bounds and is monotone along
the updates the pipelines make on the normal path: for both pipelines every
entry satisfies `0 ≤ transferred`, and `transferred ≤ size` whenever the
recorded size is a non-negative number (the receiver stores the raw,
unvalidated JSON size); the receiver trace with the error-path write removed
is monotone non-decreasing, and the sender trace is monotone non-decreasing
in full.  The receiver's error-path write replaces the entry wholesale with
`transferred = 0, size = 0`, which can decrease `transferred` — see the
counterexample. -/
theorem c1_progress_amended (opfsOk : Bool) (s : List Nat) (conns : List Conn)
    (dialOk : Bool) (fn content : List Nat) (peer : String) :
    (MonoTrace (List.filter (fun e => e.status ≠ Status.error)
        (handleIncomingTransfer opfsOk s).trace) ∧
      ∀ e ∈ (handleIncomingTransfer opfsOk s).trace,
        0 ≤ e.transferred ∧
        ∀ n, e.size = some (JVal.num n) → 0 ≤ n → e.transferred ≤ n) ∧
    (MonoTrace (sendFile conns dialOk fn content peer).trace ∧
      ∀ e ∈ (sendFile conns dialOk fn content peer).trace,
        0 ≤ e.transferred ∧
        ∀ n, e.size = some (JVal.num n) → 0 ≤ n → e.transferred ≤ n) := by
  constructor
  · rcases handle_cases opfsOk s with ⟨e, rest, heq⟩ | ⟨fnv, szv, s2, heq⟩
    · rw [heq]
      constructor
      · simp [errResult, errSession, MonoTrace]
      · intro x hx
        simp only [errResult, List.mem_singleton] at hx
        subst hx
        constructor
        · exact le_refl 0
        · intro n hn h0
          simp only [errSession, Option.some.injEq, JVal.num.injEq] at hn
          show (0 : Int) ≤ n
          exact h0
    · rw [heq]
      obtain ⟨hch, hmem, hlast⟩ := recvRun_struct fnv szv s2
      have hstat : ∀ x ∈ recvStart fnv szv :: (recvRun fnv szv s2).1,
          x.status = Status.transferring := by
        intro x hx
        rcases List.mem_cons.mp hx with rfl | hx
        · rfl
        · exact (hmem x hx).2.2.1
      have hkeep : List.filter (fun e => e.status ≠ Status.error)
          (recvStart fnv szv :: (recvRun fnv szv s2).1) =
          recvStart fnv szv :: (recvRun fnv szv s2).1 :=
        List.filter_eq_self.mpr (fun a ha => by simp [hstat a ha])
      have hbound : ∀ x ∈ recvStart fnv szv :: (recvRun fnv szv s2).1,
          0 ≤ x.transferred ∧ x.size = szv ∧
          ∀ n, szv = some (JVal.num n) → 0 ≤ n → x.transferred ≤ n := by
        intro x hx
        rcases List.mem_cons.mp hx with rfl | hx
        · exact ⟨le_refl 0, rfl, fun n _ h0 => h0⟩
        · obtain ⟨_, hsz, _, _, _, h0, hb⟩ := hmem x hx
          exact ⟨h0, hsz, fun n hn _ => hb n hn⟩
      rcases afterMeta_trace_cases opfsOk fnv szv s2 with ⟨er, htr, _, _⟩ | ⟨htr, _, _⟩
      · constructor
        · rw [htr, List.filter_append, hkeep]
          rw [show List.filter (fun e => e.status ≠ Status.error)
            [errSession er] = [] from by simp [errSession]]
          rw [List.append_nil]
          exact hch
        · intro x hx
          rw [htr] at hx
          rcases List.mem_append.mp hx with hx | hx
          · obtain ⟨h0, hsz, hb⟩ := hbound x hx
            exact ⟨h0, fun n hn => hb n (hsz ▸ hn)⟩
          · simp only [List.mem_singleton] at hx
            subst hx
            refine ⟨le_refl 0, ?_⟩
            intro n hn h0
            show (0 : Int) ≤ n
            exact h0
      · have hone : ∀ x : Session, x.status = Status.completed →
            List.filter (fun e => e.status ≠ Status.error) [x] = [x] := by
          intro x hx
          simp [hx]
        constructor
        · rw [htr, List.filter_append, hkeep, hone _ rfl]
          unfold MonoTrace
          rw [List.chain'_append]
          refine ⟨hch, List.chain'_singleton _, ?_⟩
          intro x hx y hy
          rw [Option.mem_def, hlast] at hx
          simp only [Option.some.injEq] at hx
          subst hx
          simp only [List.head?_cons, Option.mem_def, Option.some.injEq] at hy
          rw [← hy]
        · intro x hx
          rw [htr] at hx
          rcases List.mem_append.mp hx with hx | hx
          · obtain ⟨h0, hsz, hb⟩ := hbound x hx
            exact ⟨h0, fun n hn => hb n (hsz ▸ hn)⟩
          · simp only [List.mem_singleton] at hx
            subst hx
            have hfin := getLast?_mem_list hlast
            obtain ⟨h0, hsz, hb⟩ := hbound _ hfin
            refine ⟨h0, ?_⟩
            intro n hn h0n
            have hn2 : szv = some (JVal.num n) := by
              rw [← hsz]
              exact hn
            exact hb n hn2 h0n
  · obtain ⟨hmch, hmem, _, _⟩ := sendFile_struct conns dialOk fn content peer
    refine ⟨hmch, ?_⟩
    intro x hx
    obtain ⟨h0, hle, hsz, _⟩ := hmem x hx
    refine ⟨h0, ?_⟩
    intro n hn _
    rw [hsz] at hn
    simp only [Option.some.injEq, JVal.num.injEq] at hn
    rw [← hn]
    exact hle

end ByteHop

namespace ByteHop

theorem recvLoopF_succ (fuel : Nat) (size : Int) (cur : Session) (remaining : Int)
    (s : List Nat) :
    recvLoopF (fuel + 1) size cur remaining s =
      if 0 < remaining then
        match readBytes (min remaining 65536).toNat s with
        | none => ([], cur, Except.error TErr.streamEnded, s)
        | some (chunk, rest) =>
          let remaining2 := remaining - (chunk.length : Int)
          let upd := { cur with transferred := size - remaining2 }
          let r := recvLoopF fuel size upd remaining2 rest
          (upd :: r.1, r.2.1, (r.2.2.1).map (fun cs => chunk :: cs), r.2.2.2)
      else ([], cur, Except.ok [], s) := rfl

theorem afterMeta_error (opfsOk : Bool) (fnv szv : Option JVal) (s2 : List Nat)
    (tr : List Session) (fin : Session) (e : TErr) (rest : List Nat)
    (h : recvRun fnv szv s2 = (tr, fin, Except.error e, rest)) :
    afterMeta opfsOk fnv szv s2 =
      { trace := recvStart fnv szv :: tr ++ [errSession e],
        received := none, closes := 0, rest := rest,
        strategy := some (if opfsOk then Strategy.persistent else Strategy.memory),
        attempts := 1, outcome := Except.error e } := by
  unfold afterMeta
  rw [h]

/-- C1 counterexample: a sender that declares `size = 65537` but supplies only
65536 payload bytes drives the receiver's registry entry from `transferred = 0`
up to `65536` and then back DOWN to `0` — the catch block overwrites the entry
with `transferred: 0, size: 0` — so the receiver's `transferred` sequence is
`[0, 65536, 0]` and is not monotone non-decreasing, contradicting the claim
that `transferred` only ever counts upwards toward `size` on every update. -/
theorem c1_counterexample :
    (handleIncomingTransfer true
        (be4 29 ++ encodeMeta [97] 65537 ++ List.replicate 65536 7)).trace.map
        Session.transferred = [0, 65536, 0] ∧
    ¬ MonoTrace (handleIncomingTransfer true
        (be4 29 ++ encodeMeta [97] 65537 ++ List.replicate 65536 7)).trace := by
  have hL : (encodeMeta [97] 65537).length = 29 := rfl
  have hread1 : readBytes 65536 (List.replicate 65536 7) =
      some (List.replicate 65536 7, []) := by
    have h := readBytes_exact (List.replicate 65536 7) []
    rwa [List.length_replicate, List.append_nil] at h
  have hstep2 : recvLoopF 65537 65537
      { recvStart (some (JVal.str [97])) (some (JVal.num 65537)) with
        transferred := 65536 } 1 [] =
      ([], { recvStart (some (JVal.str [97])) (some (JVal.num 65537)) with
        transferred := 65536 }, Except.error TErr.streamEnded, []) := by
    rw [show (65537 : Nat) = 65536 + 1 from rfl, recvLoopF_succ]
    rw [if_pos (by norm_num : (0 : Int) < 1)]
    rw [show ((min (1 : Int) 65536).toNat) = 1 from by decide]
    rfl
  have hstep1 : recvLoopF 65538 65537
      (recvStart (some (JVal.str [97])) (some (JVal.num 65537))) 65537
      (List.replicate 65536 7) =
      ([{ recvStart (some (JVal.str [97])) (some (JVal.num 65537)) with
          transferred := 65536 }],
       { recvStart (some (JVal.str [97])) (some (JVal.num 65537)) with
          transferred := 65536 }, Except.error TErr.streamEnded, []) := by
    rw [show (65538 : Nat) = 65537 + 1 from rfl, recvLoopF_succ]
    rw [if_pos (by norm_num : (0 : Int) < 65537)]
    rw [show ((min (65537 : Int) 65536).toNat) = 65536 from by decide]
    rw [hread1]
    dsimp only
    rw [List.length_replicate]
    norm_num
    rw [hstep2]
    exact ⟨rfl, rfl, rfl, rfl⟩
  have hrun : recvRun (some (JVal.str [97])) (some (JVal.num 65537))
      (List.replicate 65536 7) =
      ([{ recvStart (some (JVal.str [97])) (some (JVal.num 65537)) with
          transferred := 65536 }],
       { recvStart (some (JVal.str [97])) (some (JVal.num 65537)) with
          transferred := 65536 }, Except.error TErr.streamEnded, []) := by
    unfold recvRun
    dsimp only
    rw [show ((65537 : Int).toNat + 1) = 65538 from by decide]
    exact hstep1
  have hmain : handleIncomingTransfer true
      (be4 29 ++ encodeMeta [97] 65537 ++ List.replicate 65536 7) =
      afterMeta true (some (JVal.str [97])) (some (JVal.num 65537))
        (List.replicate 65536 7) := by
    have h := handle_frame true (encodeMeta [97] 65537) (List.replicate 65536 7)
        (by rw [hL]; omega)
    rw [hL] at h
    rw [h, parseMeta_encode]
    dsimp only
    norm_num
  have htr : (handleIncomingTransfer true
      (be4 29 ++ encodeMeta [97] 65537 ++ List.replicate 65536 7)).trace =
      [recvStart (some (JVal.str [97])) (some (JVal.num 65537)),
       { recvStart (some (JVal.str [97])) (some (JVal.num 65537)) with
         transferred := 65536 },
       errSession TErr.streamEnded] := by
    rw [hmain, afterMeta_error true _ _ _ _ _ _ _ hrun]
    rfl
  constructor
  · rw [htr]
    simp [recvStart, errSession]
  · rw [htr]
    simp +decide [MonoTrace, List.chain'_cons, recvStart, errSession]

end ByteHop
